import Mathlib

/-!
Shallow embedding of `src/app.py` (heart-disease prediction API): the
validation schema `VALIDATION_RULES`, the validator `validate_data`, the
feature-vector assembly of the request handler, and the handler itself,
together with proofs about them.
-/

namespace HeartApp

/-- A JSON value as produced by `request.json` (strict JSON: numbers arrive
either as a Python `int` or as a `float`, the latter modelled by the exact
rational value it denotes). -/
inductive JsonValue where
  | null : JsonValue
  | bool (b : Bool) : JsonValue
  | int (n : Int) : JsonValue
  | float (q : Rat) : JsonValue
  | str (s : String) : JsonValue
  | arr (xs : List JsonValue) : JsonValue
  | obj (fields : List (String × JsonValue)) : JsonValue

/-- The request body: a JSON object, i.e. a finite mapping from field names
to JSON values, modelled as an association list in which the first binding
of a key is its value. -/
abbrev Record := List (String × JsonValue)

/-- Dictionary lookup, `data.get(field)`-style: first binding wins. -/
def lookupRecord : Record → String → Option JsonValue
  | [], _ => none
  | (k, v) :: rest, f => if k = f then some v else lookupRecord rest f

/-- The Python exception classes the embedded operations can raise:
`int()` raises `ValueError` or `TypeError`; dictionary subscription raises
`KeyError`. -/
inductive PyExn where
  | valueError : PyExn
  | typeError : PyExn
  | keyError : PyExn
  deriving DecidableEq

/-- `data[field]`: dictionary subscription, raising `KeyError` when the key
is absent. -/
def getItem (data : Record) (field : String) : Except PyExn JsonValue :=
  match lookupRecord data field with
  | some v => Except.ok v
  | none => Except.error PyExn.keyError

/-- Value of a decimal digit run; `none` when the run is empty or contains a
non-digit. -/
def digitsToNat : List Char → Option Nat
  | [] => none
  | cs =>
      if cs.all Char.isDigit then
        some (cs.foldl (fun a c => a * 10 + (c.toNat - 48)) 0)
      else none

/-- CPython `int(s)` on a string: surrounding whitespace is stripped, an
optional sign precedes a nonempty digit run (underscore digit grouping is
not modelled; nothing here depends on it). -/
def parsePyInt (s : String) : Option Int :=
  match s.trim.toList with
  | '+' :: rest => (digitsToNat rest).map (fun n => (n : Int))
  | '-' :: rest => (digitsToNat rest).map (fun n => -(n : Int))
  | cs => (digitsToNat cs).map (fun n => (n : Int))

/-- Truncation toward zero, as CPython `int()` applied to a float. -/
def truncRat (q : Rat) : Int := Int.tdiv q.num (q.den : Int)

/-- CPython `int(value)` on a JSON value: ints pass through, booleans become
0/1, floats truncate toward zero, strings are parsed (`ValueError` on
failure); `None`, arrays and objects raise `TypeError`. -/
def int_coerce : JsonValue → Except PyExn Int
  | JsonValue.int n => Except.ok n
  | JsonValue.bool b => Except.ok (if b then 1 else 0)
  | JsonValue.float q => Except.ok (truncRat q)
  | JsonValue.str s =>
      match parsePyInt s with
      | some n => Except.ok n
      | none => Except.error PyExn.valueError
  | JsonValue.null => Except.error PyExn.typeError
  | JsonValue.arr _ => Except.error PyExn.typeError
  | JsonValue.obj _ => Except.error PyExn.typeError

/-- Which exceptions the clause `except (ValueError, TypeError)` around the
type coercion (app.py line 113) catches. -/
def caughtByIntClause : PyExn → Bool
  | PyExn.valueError => true
  | PyExn.typeError => true
  | PyExn.keyError => false

/-- One entry of `VALIDATION_RULES` (app.py lines 27-97). The `'type'` key
is `int` for every field and is embodied by `int_coerce`. -/
structure Rule where
  min : Option Int
  max : Option Int
  allowed_values : Option (List Int)
  required : Bool
  deriving DecidableEq

/-- The rule table of app.py lines 27-97, in its declaration order (Python
dicts iterate in insertion order). Fields of each rule: min, max,
allowed_values, required. -/
def VALIDATION_RULES : List (String × Rule) :=
  [("age", ⟨some 18, some 100, none, true⟩),
   ("sex", ⟨none, none, some [0, 1], true⟩),
   ("cp", ⟨none, none, some [0, 1, 2, 3], true⟩),
   ("trestbps", ⟨some 90, some 200, none, true⟩),
   ("chol", ⟨some 120, some 570, none, true⟩),
   ("fbs", ⟨none, none, some [0, 1], true⟩),
   ("restecg", ⟨none, none, some [0, 1, 2], true⟩),
   ("thalach", ⟨some 60, some 220, none, true⟩),
   ("exang", ⟨none, none, some [0, 1], true⟩),
   ("oldpeak", ⟨none, none, some [0, 1, 2, 3, 4, 5], true⟩),
   ("slope", ⟨none, none, some [0, 1, 2], true⟩),
   ("ca", ⟨none, none, some [0, 1, 2, 3], true⟩),
   ("thal", ⟨none, none, some [0, 1, 2, 3], true⟩)]

/-- Error message of app.py line 105. -/
def msgMissing (f : String) : String := "Missing required field: " ++ f

/-- Error message of app.py line 114 (the type is always `int`). -/
def msgType (f : String) : String := f ++ " must be of type int"

/-- Error message of app.py line 119. -/
def msgMin (f : String) (mn : Int) : String :=
  f ++ " must be at least " ++ toString mn

/-- Error message of app.py line 121. -/
def msgMax (f : String) (mx : Int) : String :=
  f ++ " must be no more than " ++ toString mx

/-- Python `repr` of a list of ints, as interpolated on app.py line 125. -/
def pyListRepr (l : List Int) : String :=
  "[" ++ String.intercalate ", " (l.map toString) ++ "]"

/-- Error message of app.py line 125. -/
def msgAllowed (f : String) (al : List Int) : String :=
  f ++ " must be one of " ++ pyListRepr al

/-- The loop body of `validate_data` (app.py lines 103-125) for one field:
the errors appended for that field; an uncaught Python exception propagates
in the `Except.error` case. A missing field yields only the missing-field
message (when required) and nothing else; a failed coercion yields only the
type message; otherwise the min, max and allowed-value checks each run
independently on the coerced value. -/
def validateField (data : Record) (field : String) (r : Rule) :
    Except PyExn (List String) :=
  if (lookupRecord data field).isNone then
    Except.ok (if r.required then [msgMissing field] else [])
  else do
    let value ← getItem data field
    match int_coerce value with
    | Except.error e =>
        if caughtByIntClause e then Except.ok [msgType field]
        else Except.error e
    | Except.ok v =>
        Except.ok
          ((match r.min with
            | some mn => if v < mn then [msgMin field mn] else []
            | none => []) ++
           (match r.max with
            | some mx => if v > mx then [msgMax field mx] else []
            | none => []) ++
           (match r.allowed_values with
            | some al => if v ∉ al then [msgAllowed field al] else []
            | none => []))

/-- The loop of `validate_data` over the (remaining) rule entries, in
declaration order, accumulating the errors. -/
def validateLoop (data : Record) : List (String × Rule) → Except PyExn (List String)
  | [] => Except.ok []
  | (f, r) :: rest => do
    let es ← validateField data f r
    let rest' ← validateLoop data rest
    pure (es ++ rest')

/-- `validate_data` (app.py lines 99-127). -/
def validate_data (data : Record) : Except PyExn (List String) :=
  validateLoop data VALIDATION_RULES

/-- The model capability (spec section 6, outbound): label and probability
outputs for a feature vector; the two class probabilities as exact
rationals, in class order. -/
structure Model where
  predict : List Int → Int
  predict_proba : List Int → Rat × Rat

/-- A call the handler makes to the model capability, with its argument. -/
inductive ModelCall where
  | label (values : List Int) : ModelCall
  | proba (values : List Int) : ModelCall
  deriving DecidableEq

/-- The JSON bodies the handler can produce (`timestamp`, a wall-clock read,
is outside the model; `success` is `false` for `failure` and
`internalError`, `true` for `success`). -/
inductive RespBody where
  | failure (errors : List String) : RespBody
  | success (prediction : Int) (negative : Rat) (positive : Rat) : RespBody
  | internalError : RespBody
  deriving DecidableEq

/-- An HTTP response: status code and JSON body. -/
structure Response where
  status : Nat
  body : RespBody
  deriving DecidableEq

/-- `int(data[field])` as in the vector assembly (app.py lines 145-157). -/
def intOfItem (data : Record) (field : String) : Except PyExn Int := do
  let v ← getItem data field
  int_coerce v

/-- The feature vector of app.py lines 144-158, in the hard-coded field
order (the `np.array [[...]]` wrapper contributes only shape). -/
def assembleVector (data : Record) : Except PyExn (List Int) := do
  let age ← intOfItem data "age"
  let sex ← intOfItem data "sex"
  let cp ← intOfItem data "cp"
  let trestbps ← intOfItem data "trestbps"
  let chol ← intOfItem data "chol"
  let fbs ← intOfItem data "fbs"
  let restecg ← intOfItem data "restecg"
  let thalach ← intOfItem data "thalach"
  let exang ← intOfItem data "exang"
  let oldpeak ← intOfItem data "oldpeak"
  let slope ← intOfItem data "slope"
  let ca ← intOfItem data "ca"
  let thal ← intOfItem data "thal"
  pure [age, sex, cp, trestbps, chol, fbs, restecg, thalach, exang, oldpeak,
        slope, ca, thal]

/-- The `/api/predict` handler (app.py lines 129-179): validate, then either
report the errors with status 400, or assemble the vector, invoke the model
(label, then probabilities) and answer 200; the surrounding
`try`/`except Exception` maps any uncaught exception to a generic 500. The
model instance is passed in rather than read from process state. The second
component records the calls made to the model capability, in order. -/
def predict (m : Model) (data : Record) : Response × List ModelCall :=
  match validate_data data with
  | Except.error _ => (⟨500, RespBody.internalError⟩, [])
  | Except.ok errors =>
    if errors.isEmpty then
      match assembleVector data with
      | Except.error _ => (⟨500, RespBody.internalError⟩, [])
      | Except.ok values =>
          (⟨200, RespBody.success (m.predict values)
              (m.predict_proba values).1 (m.predict_proba values).2⟩,
           [ModelCall.label values, ModelCall.proba values])
    else (⟨400, RespBody.failure errors⟩, [])

/-! ### Helper layer: a pure mirror of the validator and counting lemmas -/

/-- The list of error messages `validateField` appends (pure mirror; the
equivalence is `validateField_eq`). -/
def fieldMsgsOf (data : Record) (field : String) (r : Rule) : List String :=
  match lookupRecord data field with
  | none => if r.required then [msgMissing field] else []
  | some value =>
    match int_coerce value with
    | Except.error _ => [msgType field]
    | Except.ok v =>
        (match r.min with
         | some mn => if v < mn then [msgMin field mn] else []
         | none => []) ++
        (match r.max with
         | some mx => if v > mx then [msgMax field mx] else []
         | none => []) ++
        (match r.allowed_values with
         | some al => if v ∉ al then [msgAllowed field al] else []
         | none => [])

/-- In-order concatenation of the per-field error lists. -/
def listErrs (data : Record) : List (String × Rule) → List String
  | [] => []
  | (f, r) :: rest => fieldMsgsOf data f r ++ listErrs data rest

theorem ok_bind {α β : Type} (a : α) (k : α → Except PyExn β) :
    (Except.ok a >>= k) = k a := rfl

theorem bind_ok_iff {α β : Type} (m : Except PyExn α) (k : α → Except PyExn β)
    (b : β) : (m >>= k) = Except.ok b ↔ ∃ a, m = Except.ok a ∧ k a = Except.ok b := by
  cases m <;> simp [Bind.bind, Except.bind]

/-- `int()` raises only `ValueError` or `TypeError`, never `KeyError`. -/
theorem int_coerce_not_keyError (v : JsonValue) :
    int_coerce v ≠ Except.error PyExn.keyError := by
  cases v <;> simp [int_coerce]
  split <;> simp

theorem validateField_eq (data : Record) (field : String) (r : Rule) :
    validateField data field r = Except.ok (fieldMsgsOf data field r) := by
  unfold validateField fieldMsgsOf
  cases h : lookupRecord data field with
  | none => simp [h]
  | some v =>
      simp only [h, Option.isNone_some, Bool.false_eq_true, if_false, getItem, h,
        ok_bind, ite_false]
      cases hc : int_coerce v with
      | error e =>
          cases e with
          | valueError => simp [caughtByIntClause]
          | typeError => simp [caughtByIntClause]
          | keyError => exact absurd hc (int_coerce_not_keyError v)
      | ok n => rfl

theorem validateLoop_eq (data : Record) :
    ∀ rules : List (String × Rule),
      validateLoop data rules = Except.ok (listErrs data rules)
  | [] => rfl
  | (f, r) :: rest => by
      simp [validateLoop, validateField_eq, ok_bind, validateLoop_eq data rest,
        listErrs]

theorem validate_data_eq (data : Record) :
    validate_data data = Except.ok (listErrs data VALIDATION_RULES) :=
  validateLoop_eq data VALIDATION_RULES

/-- Every message a field's rule can ever produce. -/
def possibleMsgs (f : String) (r : Rule) : List String :=
  [msgMissing f, msgType f] ++
  (match r.min with | some mn => [msgMin f mn] | none => []) ++
  (match r.max with | some mx => [msgMax f mx] | none => []) ++
  (match r.allowed_values with | some al => [msgAllowed f al] | none => [])

theorem fieldMsgsOf_subset (data : Record) (f : String) (r : Rule) :
    fieldMsgsOf data f r ⊆ possibleMsgs f r := by
  intro x hx
  unfold fieldMsgsOf at hx
  unfold possibleMsgs
  cases h : lookupRecord data f with
  | none =>
      rw [h] at hx
      split at hx <;> simp_all
  | some v =>
      rw [h] at hx
      dsimp only at hx
      cases hc : int_coerce v with
      | error e => rw [hc] at hx; simp_all
      | ok n =>
          rw [hc] at hx
          dsimp only at hx
          have hA : (match r.min with
              | some mn => if n < mn then [msgMin f mn] else []
              | none => []) ⊆ (match r.min with
              | some mn => [msgMin f mn]
              | none => ([] : List String)) := by
            rcases hm : r.min with _ | mn <;> simp [hm]
            split <;> simp
          have hB : (match r.max with
              | some mx => if n > mx then [msgMax f mx] else []
              | none => []) ⊆ (match r.max with
              | some mx => [msgMax f mx]
              | none => ([] : List String)) := by
            rcases hm : r.max with _ | mx <;> simp [hm]
            split <;> simp
          have hC : (match r.allowed_values with
              | some al => if n ∉ al then [msgAllowed f al] else []
              | none => []) ⊆ (match r.allowed_values with
              | some al => [msgAllowed f al]
              | none => ([] : List String)) := by
            rcases hm : r.allowed_values with _ | al <;> simp [hm]
            split <;> simp
          simp only [List.mem_append] at hx ⊢
          rcases hx with (hx | hx) | hx
          · exact Or.inl (Or.inl (Or.inr (hA hx)))
          · exact Or.inl (Or.inr (hB hx))
          · exact Or.inr (hC hx)

theorem count_fieldMsgsOf_zero (data : Record) (t f : String) (r : Rule)
    (h : t ∉ possibleMsgs f r) : (fieldMsgsOf data f r).count t = 0 :=
  List.count_eq_zero.mpr (fun hm => h (fieldMsgsOf_subset data f r hm))

theorem count_listErrs_zero (data : Record) (t : String) :
    ∀ rules : List (String × Rule),
      (∀ fr ∈ rules, t ∉ possibleMsgs fr.1 fr.2) →
      (listErrs data rules).count t = 0
  | [], _ => rfl
  | (f, r) :: rest, h => by
      have h1 := count_fieldMsgsOf_zero data t f r (h (f, r) (by simp))
      have h2 := count_listErrs_zero data t rest (fun fr hfr => h fr (by simp [hfr]))
      simp [listErrs, List.count_append, h1, h2]

theorem count_listErrs_eq (data : Record) (t f : String) (r : Rule) :
    ∀ rules : List (String × Rule),
      (rules.map (fun fr => possibleMsgs fr.1 fr.2)).Pairwise
        (fun a b => ∀ x ∈ a, x ∉ b) →
      (f, r) ∈ rules → t ∈ possibleMsgs f r →
      (listErrs data rules).count t = (fieldMsgsOf data f r).count t
  | [], _, hmem, _ => absurd hmem (List.not_mem_nil _)
  | (g, s) :: rest, hp, hmem, ht => by
      rw [List.map_cons, List.pairwise_cons] at hp
      rcases List.mem_cons.mp hmem with h | h
      · injection h with hg hs
        subst hg; subst hs
        have hzero : (listErrs data rest).count t = 0 := by
          apply count_listErrs_zero
          intro fr hfr hmem2
          exact hp.1 (possibleMsgs fr.1 fr.2) (List.mem_map_of_mem _ hfr) t ht hmem2
        simp [listErrs, List.count_append, hzero]
      · have htg : t ∉ possibleMsgs g s := fun hmem2 =>
          hp.1 (possibleMsgs f r)
            (List.mem_map_of_mem (fun fr => possibleMsgs fr.1 fr.2) h) t hmem2 ht
        have h1 := count_fieldMsgsOf_zero data t g s htg
        have ih := count_listErrs_eq data t f r rest hp.2 h ht
        simp [listErrs, List.count_append, h1, ih]

theorem pairwise_msgs :
    (VALIDATION_RULES.map (fun fr => possibleMsgs fr.1 fr.2)).Pairwise
      (fun a b => ∀ x ∈ a, x ∉ b) := by decide

/-- For a field of `VALIDATION_RULES`, the count of one of its possible
messages in the full error list is its count in that field's own errors
(no other field can produce the message). -/
theorem count_eq_field (data : Record) (t f : String) (r : Rule)
    (hmem : (f, r) ∈ VALIDATION_RULES) (ht : t ∈ possibleMsgs f r) :
    (listErrs data VALIDATION_RULES).count t = (fieldMsgsOf data f r).count t :=
  count_listErrs_eq data t f r VALIDATION_RULES pairwise_msgs hmem ht

theorem mem_listErrs (data : Record) (x f : String) (r : Rule) :
    ∀ rules : List (String × Rule), (f, r) ∈ rules →
      x ∈ fieldMsgsOf data f r → x ∈ listErrs data rules
  | [], hmem, _ => absurd hmem (List.not_mem_nil _)
  | (g, s) :: rest, hmem, hx => by
      rcases List.mem_cons.mp hmem with h | h
      · injection h with hg hs
        subst hg; subst hs
        simp [listErrs, List.mem_append, hx]
      · simp [listErrs, List.mem_append, mem_listErrs data x f r rest h hx]

/-- The five message kinds of one rule are pairwise distinct strings
(stated through matches so that it is decidable; checked on the table). -/
def msgFactsB (f : String) (r : Rule) : Bool :=
  (msgType f != msgMissing f) &&
  (match r.min with
   | some mn => (msgMin f mn != msgMissing f) && (msgMin f mn != msgType f)
   | none => true) &&
  (match r.max with
   | some mx => (msgMax f mx != msgMissing f) && (msgMax f mx != msgType f) &&
       (match r.min with
        | some mn => msgMax f mx != msgMin f mn
        | none => true)
   | none => true) &&
  (match r.allowed_values with
   | some al => (msgAllowed f al != msgMissing f) && (msgAllowed f al != msgType f) &&
       (match r.min with
        | some mn => msgAllowed f al != msgMin f mn
        | none => true) &&
       (match r.max with
        | some mx => msgAllowed f al != msgMax f mx
        | none => true)
   | none => true)

theorem msgs_facts : ∀ fr ∈ VALIDATION_RULES, msgFactsB fr.1 fr.2 = true := by
  decide

/-- Whenever a rule of the table has both bounds, min does not exceed max. -/
def minLeMaxB (r : Rule) : Bool :=
  match r.min, r.max with
  | some mn, some mx => decide (mn ≤ mx)
  | _, _ => true

theorem rules_min_le_max : ∀ fr ∈ VALIDATION_RULES, minLeMaxB fr.2 = true := by
  decide

/-- A field satisfies its rule: present, coercible to int, and the coerced
value within the min/max bounds and in the allowed set (when present). -/
def fieldValid (data : Record) (field : String) (r : Rule) : Bool :=
  match lookupRecord data field with
  | none => false
  | some value =>
    match int_coerce value with
    | Except.error _ => false
    | Except.ok v =>
        (match r.min with | some mn => decide (mn ≤ v) | none => true) &&
        (match r.max with | some mx => decide (v ≤ mx) | none => true) &&
        (match r.allowed_values with | some al => decide (v ∈ al) | none => true)

theorem fieldMsgsOf_nil (data : Record) (field : String) (r : Rule)
    (h : fieldValid data field r = true) : fieldMsgsOf data field r = [] := by
  unfold fieldValid at h
  unfold fieldMsgsOf
  cases hl : lookupRecord data field <;> rw [hl] at h
  · simp at h
  case some v =>
    dsimp only at h ⊢
    cases hc : int_coerce v <;> rw [hc] at h
    · simp at h
    case ok n =>
      dsimp only at h ⊢
      simp only [Bool.and_eq_true] at h
      obtain ⟨⟨h1, h2⟩, h3⟩ := h
      rw [List.append_eq_nil, List.append_eq_nil]
      refine ⟨⟨?_, ?_⟩, ?_⟩
      · rcases hm : r.min with _ | mn
        · rfl
        · rw [hm] at h1
          simp only [decide_eq_true_eq] at h1
          dsimp only
          rw [if_neg (by omega)]
      · rcases hm : r.max with _ | mx
        · rfl
        · rw [hm] at h2
          simp only [decide_eq_true_eq] at h2
          dsimp only
          rw [if_neg (by omega)]
      · rcases hm : r.allowed_values with _ | al
        · rfl
        · rw [hm] at h3
          simp only [decide_eq_true_eq] at h3
          dsimp only
          rw [if_neg (by simp [h3])]

theorem listErrs_nil (data : Record) :
    ∀ rules : List (String × Rule),
      (∀ fr ∈ rules, fieldValid data fr.1 fr.2 = true) → listErrs data rules = []
  | [], _ => rfl
  | (f, r) :: rest, h => by
      simp [listErrs, fieldMsgsOf_nil data f r (h (f, r) (by simp)),
        listErrs_nil data rest (fun fr hfr => h fr (by simp [hfr]))]

/-- The record of end-to-end scenario 1 (spec section 8). -/
def rec1 : Record :=
  [("age", JsonValue.int 55), ("sex", JsonValue.int 1), ("cp", JsonValue.int 2),
   ("trestbps", JsonValue.int 130), ("chol", JsonValue.int 250),
   ("fbs", JsonValue.int 0), ("restecg", JsonValue.int 1),
   ("thalach", JsonValue.int 150), ("exang", JsonValue.int 0),
   ("oldpeak", JsonValue.int 1), ("slope", JsonValue.int 1),
   ("ca", JsonValue.int 0), ("thal", JsonValue.int 2)]

/-- C1: every record that contains all 13 schema fields, with values
coercible to int whose coerced values lie within each field's inclusive
bounds and allowed-value set, validates with an empty error sequence. -/
theorem C1_valid_record_no_errors (data : Record)
    (h : ∀ fr ∈ VALIDATION_RULES, fieldValid data fr.1 fr.2 = true) :
    validate_data data = Except.ok [] := by
  rw [validate_data_eq, listErrs_nil data VALIDATION_RULES h]

theorem C1_valid_record_no_errors_witness :
    validate_data rec1 = Except.ok [] :=
  C1_valid_record_no_errors rec1 (by decide)

/-- C6: for the scenario-1 record, validation passes and the assembled
feature vector is exactly the 13 coerced values in schema declaration
order. -/
theorem C6_scenario_one :
    validate_data rec1 = Except.ok [] ∧
    assembleVector rec1 =
      Except.ok [55, 1, 2, 130, 250, 0, 1, 150, 0, 1, 1, 0, 2] :=
  ⟨by rfl, by rfl⟩

/-- C7: the validator is total on records whose values have any JSON shape
(strings, numbers, booleans, null, arrays, objects): it always returns an
error list and never propagates an exception, and a present value that
fails coercion is reported in that list as a type error rather than
raised. -/
theorem C7_validator_total (data : Record) :
    ∃ errs : List String, validate_data data = Except.ok errs ∧
      ∀ f r v e, (f, r) ∈ VALIDATION_RULES → lookupRecord data f = some v →
        int_coerce v = Except.error e → msgType f ∈ errs := by
  refine ⟨listErrs data VALIDATION_RULES, validate_data_eq data, ?_⟩
  intro f r v e hmem hlook hco
  apply mem_listErrs data (msgType f) f r VALIDATION_RULES hmem
  unfold fieldMsgsOf
  rw [hlook]
  dsimp only
  rw [hco]
  simp

theorem errs_eq (data : Record) (errs : List String)
    (hval : validate_data data = Except.ok errs) :
    errs = listErrs data VALIDATION_RULES := by
  have h := validate_data_eq data
  rw [hval] at h
  injection h

theorem fieldMsgsOf_missing (data : Record) (f : String) (r : Rule)
    (hlook : lookupRecord data f = none) (hreq : r.required = true) :
    fieldMsgsOf data f r = [msgMissing f] := by
  unfold fieldMsgsOf
  rw [hlook]
  dsimp only
  rw [if_pos hreq]

theorem fieldMsgsOf_typeErr (data : Record) (f : String) (r : Rule)
    (v : JsonValue) (e : PyExn) (hlook : lookupRecord data f = some v)
    (hco : int_coerce v = Except.error e) :
    fieldMsgsOf data f r = [msgType f] := by
  unfold fieldMsgsOf
  rw [hlook]
  dsimp only
  rw [hco]

theorem fieldMsgsOf_coerced (data : Record) (f : String) (r : Rule)
    (v : JsonValue) (n : Int) (hlook : lookupRecord data f = some v)
    (hco : int_coerce v = Except.ok n) :
    fieldMsgsOf data f r =
      (match r.min with
       | some mn => if n < mn then [msgMin f mn] else []
       | none => []) ++
      (match r.max with
       | some mx => if n > mx then [msgMax f mx] else []
       | none => []) ++
      (match r.allowed_values with
       | some al => if n ∉ al then [msgAllowed f al] else []
       | none => []) := by
  unfold fieldMsgsOf
  rw [hlook]
  dsimp only
  rw [hco]

/-- A possible message of a field that its own error list does not contain
occurs nowhere in the full error list. -/
theorem notMemErrs (data : Record) (f : String) (r : Rule)
    (hmem : (f, r) ∈ VALIDATION_RULES) {t : String}
    (hT : t ∈ possibleMsgs f r) (hnot : t ∉ fieldMsgsOf data f r) :
    t ∉ listErrs data VALIDATION_RULES :=
  List.count_eq_zero.mp (by
    rw [count_eq_field data t f r hmem hT]
    exact List.count_eq_zero.mpr hnot)

theorem countOneErrs (data : Record) (f : String) (r : Rule)
    (hmem : (f, r) ∈ VALIDATION_RULES) {t : String}
    (hT : t ∈ possibleMsgs f r) (hfield : fieldMsgsOf data f r = [t]) :
    (listErrs data VALIDATION_RULES).count t = 1 := by
  rw [count_eq_field data t f r hmem hT, hfield]
  simp [List.count_cons]

/-- The distinctness facts of `msgFactsB`, in propositional form, for any
field of the table. -/
theorem msgFacts_of_mem (f : String) (r : Rule)
    (hmem : (f, r) ∈ VALIDATION_RULES) :
    msgType f ≠ msgMissing f ∧
    (∀ mn, r.min = some mn →
       msgMin f mn ≠ msgMissing f ∧ msgMin f mn ≠ msgType f) ∧
    (∀ mx, r.max = some mx →
       msgMax f mx ≠ msgMissing f ∧ msgMax f mx ≠ msgType f ∧
       ∀ mn, r.min = some mn → msgMax f mx ≠ msgMin f mn) ∧
    (∀ al, r.allowed_values = some al →
       msgAllowed f al ≠ msgMissing f ∧ msgAllowed f al ≠ msgType f ∧
       (∀ mn, r.min = some mn → msgAllowed f al ≠ msgMin f mn) ∧
       (∀ mx, r.max = some mx → msgAllowed f al ≠ msgMax f mx)) := by
  have h := msgs_facts (f, r) hmem
  unfold msgFactsB at h
  simp only [Bool.and_eq_true, bne_iff_ne] at h
  obtain ⟨⟨⟨hTM, hmin⟩, hmax⟩, hal⟩ := h
  refine ⟨hTM, ?_, ?_, ?_⟩
  · intro mn hmn
    rw [hmn] at hmin
    dsimp only at hmin
    simp only [Bool.and_eq_true, bne_iff_ne] at hmin
    exact hmin
  · intro mx hmx
    rw [hmx] at hmax
    dsimp only at hmax
    simp only [Bool.and_eq_true, bne_iff_ne] at hmax
    obtain ⟨⟨h1, h2⟩, h3⟩ := hmax
    refine ⟨h1, h2, ?_⟩
    intro mn hmn
    rw [hmn] at h3
    dsimp only at h3
    simp only [bne_iff_ne] at h3
    exact h3
  · intro al hal2
    rw [hal2] at hal
    dsimp only at hal
    simp only [Bool.and_eq_true, bne_iff_ne] at hal
    obtain ⟨⟨⟨h1, h2⟩, h3⟩, h4⟩ := hal
    refine ⟨h1, h2, ?_, ?_⟩
    · intro mn hmn
      rw [hmn] at h3
      dsimp only at h3
      simp only [bne_iff_ne] at h3
      exact h3
    · intro mx hmx
      rw [hmx] at h4
      dsimp only at h4
      simp only [bne_iff_ne] at h4
      exact h4

/-- C2: when validation yields a nonempty error list, the handler answers
with status 400 and the validation-failure body carrying exactly those
errors, and the model capability is never invoked: the model-call log is
empty, so neither the label prediction nor the probability prediction is
evaluated. -/
theorem C2_validation_short_circuits (m : Model) (data : Record)
    (errors : List String) (hval : validate_data data = Except.ok errors)
    (hne : errors ≠ []) :
    predict m data = (⟨400, RespBody.failure errors⟩, []) := by
  unfold predict
  rw [hval]
  dsimp only
  rw [if_neg (by simp [hne])]

/-- Throwaway model used by witnesses. -/
def mW : Model := ⟨fun _ => 0, fun _ => (1, 0)⟩

/-- The errors an empty record produces: every field is missing. -/
def errsAllMissing : List String :=
  ["Missing required field: age", "Missing required field: sex",
   "Missing required field: cp", "Missing required field: trestbps",
   "Missing required field: chol", "Missing required field: fbs",
   "Missing required field: restecg", "Missing required field: thalach",
   "Missing required field: exang", "Missing required field: oldpeak",
   "Missing required field: slope", "Missing required field: ca",
   "Missing required field: thal"]

theorem C2_validation_short_circuits_witness :
    predict mW [] = (⟨400, RespBody.failure errsAllMissing⟩, []) :=
  C2_validation_short_circuits mW [] errsAllMissing (by rfl) (by decide)

/-- C8: on a successful prediction the handler returns status 200 with a
success body whose `prediction` is the model's label output and whose
probability entries are taken by fixed position from the model's returned
distribution — `negative` is its first entry (class 0) and `positive` its
second (class 1), for every model, so never by sorting values or inferring
from the label; the model is called once for the label and once for the
distribution, on the assembled vector. -/
theorem C8_probability_by_position (m : Model) (data : Record)
    (values : List Int) (hval : validate_data data = Except.ok [])
    (ha : assembleVector data = Except.ok values) :
    predict m data =
      (⟨200, RespBody.success (m.predict values) (m.predict_proba values).1
          (m.predict_proba values).2⟩,
       [ModelCall.label values, ModelCall.proba values]) := by
  unfold predict
  rw [hval]
  dsimp only
  rw [if_pos (by simp)]
  rw [ha]

/-- Witness model whose distribution is deliberately not sorted and does
not match its label output. -/
def mW2 : Model := ⟨fun _ => 1, fun _ => (mkRat 3 10, mkRat 7 10)⟩

theorem C8_probability_by_position_witness :
    predict mW2 rec1 =
      (⟨200, RespBody.success 1 (mkRat 3 10) (mkRat 7 10)⟩,
       [ModelCall.label [55, 1, 2, 130, 250, 0, 1, 150, 0, 1, 1, 0, 2],
        ModelCall.proba [55, 1, 2, 130, 250, 0, 1, 150, 0, 1, 1, 0, 2]]) :=
  C8_probability_by_position mW2 rec1
    [55, 1, 2, 130, 250, 0, 1, 150, 0, 1, 1, 0, 2] (by rfl) (by rfl)

/-- C9: the validator is a pure function of the record as a mapping: two
records with the same lookup function validate identically (so validating
the same record twice yields identical error sequences, and nothing is
mutated — the embedding is state-free). -/
theorem C9_validator_extensional (d₁ d₂ : Record)
    (h : ∀ f, lookupRecord d₁ f = lookupRecord d₂ f) :
    validate_data d₁ = validate_data d₂ := by
  unfold validate_data
  have key : ∀ rules, validateLoop d₁ rules = validateLoop d₂ rules := by
    intro rules
    induction rules with
    | nil => rfl
    | cons hd tl ih =>
        obtain ⟨f, r⟩ := hd
        have hf : validateField d₁ f r = validateField d₂ f r := by
          unfold validateField getItem
          rw [h f]
        simp only [validateLoop, hf, ih]
  exact key VALIDATION_RULES

theorem C9_validator_extensional_witness :
    validate_data [("age", JsonValue.int 55)] =
      validate_data [("age", JsonValue.int 55), ("age", JsonValue.int 99)] :=
  C9_validator_extensional _ _ (fun f => by
    by_cases hf : "age" = f <;> simp [lookupRecord, hf])

theorem C7_validator_total_witness :
    ∃ errs : List String,
      validate_data [("age", JsonValue.null)] = Except.ok errs ∧
      ∀ f r v e, (f, r) ∈ VALIDATION_RULES →
        lookupRecord [("age", JsonValue.null)] f = some v →
        int_coerce v = Except.error e → msgType f ∈ errs :=
  C7_validator_total [("age", JsonValue.null)]

/-- C3: per-field short-circuit: if a required field is absent, the error
sequence contains exactly one missing-field message for it and no type,
range or allowed-value message for it; if a field is present but its value
is not coercible to int, the error sequence contains exactly one type
message for it and no missing, range or allowed-value message for it. -/
theorem C3_per_field_short_circuit (data : Record) (f : String) (r : Rule)
    (errs : List String) (hmem : (f, r) ∈ VALIDATION_RULES)
    (hval : validate_data data = Except.ok errs) :
    (r.required = true → lookupRecord data f = none →
       errs.count (msgMissing f) = 1 ∧ msgType f ∉ errs ∧
       (∀ mn, r.min = some mn → msgMin f mn ∉ errs) ∧
       (∀ mx, r.max = some mx → msgMax f mx ∉ errs) ∧
       (∀ al, r.allowed_values = some al → msgAllowed f al ∉ errs)) ∧
    (∀ v e, lookupRecord data f = some v → int_coerce v = Except.error e →
       errs.count (msgType f) = 1 ∧ msgMissing f ∉ errs ∧
       (∀ mn, r.min = some mn → msgMin f mn ∉ errs) ∧
       (∀ mx, r.max = some mx → msgMax f mx ∉ errs) ∧
       (∀ al, r.allowed_values = some al → msgAllowed f al ∉ errs)) := by
  obtain ⟨hTM, hminF, hmaxF, halF⟩ := msgFacts_of_mem f r hmem
  have herrs := errs_eq data errs hval
  subst herrs
  constructor
  · intro hreq hlook
    have hfield := fieldMsgsOf_missing data f r hlook hreq
    refine ⟨countOneErrs data f r hmem (by simp [possibleMsgs]) hfield,
        ?_, ?_, ?_, ?_⟩
    · exact notMemErrs data f r hmem (by simp [possibleMsgs])
        (by rw [hfield]; simp [hTM])
    · intro mn hmn
      exact notMemErrs data f r hmem (by simp [possibleMsgs, hmn])
        (by rw [hfield]; simp [(hminF mn hmn).1])
    · intro mx hmx
      exact notMemErrs data f r hmem (by simp [possibleMsgs, hmx])
        (by rw [hfield]; simp [(hmaxF mx hmx).1])
    · intro al hal
      exact notMemErrs data f r hmem (by simp [possibleMsgs, hal])
        (by rw [hfield]; simp [(halF al hal).1])
  · intro v e hlook hco
    have hfield := fieldMsgsOf_typeErr data f r v e hlook hco
    refine ⟨countOneErrs data f r hmem (by simp [possibleMsgs]) hfield,
        ?_, ?_, ?_, ?_⟩
    · exact notMemErrs data f r hmem (by simp [possibleMsgs])
        (by rw [hfield]; simp [Ne.symm hTM])
    · intro mn hmn
      exact notMemErrs data f r hmem (by simp [possibleMsgs, hmn])
        (by rw [hfield]; simp [(hminF mn hmn).2])
    · intro mx hmx
      exact notMemErrs data f r hmem (by simp [possibleMsgs, hmx])
        (by rw [hfield]; simp [(hmaxF mx hmx).2.1])
    · intro al hal
      exact notMemErrs data f r hmem (by simp [possibleMsgs, hal])
        (by rw [hfield]; simp [(halF al hal).2.1])

theorem C3_per_field_short_circuit_witness :
    errsAllMissing.count (msgMissing "age") = 1 ∧ msgType "age" ∉ errsAllMissing :=
  ⟨((C3_per_field_short_circuit ([] : Record) "age"
      ⟨some 18, some 100, none, true⟩ errsAllMissing (by decide) (by rfl)).1
      rfl rfl).1,
   ((C3_per_field_short_circuit ([] : Record) "age"
      ⟨some 18, some 100, none, true⟩ errsAllMissing (by decide) (by rfl)).1
      rfl rfl).2.1⟩

/-- C4: range bounds are inclusive and the two bound checks are
independent: a coerced value equal to min or max yields no range error for
the field; a value strictly below min yields the at-least message; a value
strictly above max yields the no-more-than message, with no assumption on
the outcome of the min check. -/
theorem C4_inclusive_independent_bounds (data : Record) (f : String) (r : Rule)
    (mn mx : Int) (v : JsonValue) (n : Int) (errs : List String)
    (hmem : (f, r) ∈ VALIDATION_RULES)
    (hmn : r.min = some mn) (hmx : r.max = some mx)
    (hlook : lookupRecord data f = some v) (hco : int_coerce v = Except.ok n)
    (hval : validate_data data = Except.ok errs) :
    ((n = mn ∨ n = mx) → msgMin f mn ∉ errs ∧ msgMax f mx ∉ errs) ∧
    (n < mn → msgMin f mn ∈ errs) ∧
    (n > mx → msgMax f mx ∈ errs) := by
  obtain ⟨hTM, hminF, hmaxF, halF⟩ := msgFacts_of_mem f r hmem
  have herrs := errs_eq data errs hval
  subst herrs
  have hle : mn ≤ mx := by
    have h := rules_min_le_max (f, r) hmem
    unfold minLeMaxB at h
    rw [hmn, hmx] at h
    dsimp only at h
    simpa using h
  have hshape := fieldMsgsOf_coerced data f r v n hlook hco
  refine ⟨?_, ?_, ?_⟩
  · intro hbound
    have hnlt : ¬ (n < mn) := by rcases hbound with rfl | rfl <;> omega
    have hngt : ¬ (n > mx) := by rcases hbound with rfl | rfl <;> omega
    have hfield : fieldMsgsOf data f r =
        (match r.allowed_values with
         | some al => if n ∉ al then [msgAllowed f al] else []
         | none => []) := by
      rw [hshape, hmn, hmx]
      dsimp only
      rw [if_neg hnlt, if_neg hngt]
      simp
    constructor
    · apply notMemErrs data f r hmem (by simp [possibleMsgs, hmn])
      rw [hfield]
      rcases hA : r.allowed_values with _ | al
      · simp
      · dsimp only
        split
        · simp [Ne.symm ((halF al hA).2.2.1 mn hmn)]
        · simp
    · apply notMemErrs data f r hmem (by simp [possibleMsgs, hmx])
      rw [hfield]
      rcases hA : r.allowed_values with _ | al
      · simp
      · dsimp only
        split
        · simp [Ne.symm ((halF al hA).2.2.2 mx hmx)]
        · simp
  · intro hlt
    apply mem_listErrs data (msgMin f mn) f r VALIDATION_RULES hmem
    rw [hshape, hmn]
    dsimp only
    rw [if_pos hlt]
    simp
  · intro hgt
    apply mem_listErrs data (msgMax f mx) f r VALIDATION_RULES hmem
    rw [hshape, hmx]
    dsimp only
    rw [if_pos hgt]
    simp

/-- Record used by the C4 witness: age exactly at its maximum bound. -/
def recC4 : Record := [("age", JsonValue.int 100)]

/-- Errors of `recC4`: every field except age is missing. -/
def errsC4 : List String :=
  ["Missing required field: sex", "Missing required field: cp",
   "Missing required field: trestbps", "Missing required field: chol",
   "Missing required field: fbs", "Missing required field: restecg",
   "Missing required field: thalach", "Missing required field: exang",
   "Missing required field: oldpeak", "Missing required field: slope",
   "Missing required field: ca", "Missing required field: thal"]

theorem C4_inclusive_independent_bounds_witness :
    msgMin "age" 18 ∉ errsC4 ∧ msgMax "age" 100 ∉ errsC4 :=
  (C4_inclusive_independent_bounds recC4 "age" ⟨some 18, some 100, none, true⟩
      18 100 (JsonValue.int 100) 100 errsC4 (by decide) rfl rfl rfl rfl
      (by rfl)).1 (Or.inr rfl)

/-- C5: the validator checks every schema field and accumulates all errors
in schema declaration order — the returned error list is the in-order
concatenation of the per-field error lists; in particular, for a record
missing `age` and whose `sex` value coerces to 5, the missing-age message
and the sex allowed-value message both occur, the age one first. -/
theorem C5_accumulates_in_order (data : Record) (v : JsonValue)
    (errs : List String) (hage : lookupRecord data "age" = none)
    (hsex : lookupRecord data "sex" = some v)
    (hco : int_coerce v = Except.ok 5)
    (hval : validate_data data = Except.ok errs) :
    errs = listErrs data VALIDATION_RULES ∧
    List.Sublist [msgMissing "age", msgAllowed "sex" [0, 1]] errs := by
  have herrs := errs_eq data errs hval
  subst herrs
  refine ⟨rfl, ?_⟩
  have h1 : fieldMsgsOf data "age" ⟨some 18, some 100, none, true⟩ =
      [msgMissing "age"] :=
    fieldMsgsOf_missing data "age" _ hage rfl
  have h2 : fieldMsgsOf data "sex" ⟨none, none, some [0, 1], true⟩ =
      [msgAllowed "sex" [0, 1]] := by
    rw [fieldMsgsOf_coerced data "sex" _ v 5 hsex hco]
    dsimp only
    rw [if_pos (by decide)]
    rfl
  simp only [VALIDATION_RULES, listErrs]
  rw [h1, h2]
  exact List.Sublist.cons₂ _ (List.Sublist.cons₂ _ (List.nil_sublist _))

/-- Record used by the C5 witness: `age` absent, `sex` out of its allowed
set. -/
def recC5 : Record := [("sex", JsonValue.int 5)]

/-- Errors of `recC5`, in declaration order. -/
def errsC5 : List String :=
  ["Missing required field: age", "sex must be one of [0, 1]",
   "Missing required field: cp", "Missing required field: trestbps",
   "Missing required field: chol", "Missing required field: fbs",
   "Missing required field: restecg", "Missing required field: thalach",
   "Missing required field: exang", "Missing required field: oldpeak",
   "Missing required field: slope", "Missing required field: ca",
   "Missing required field: thal"]

theorem C5_accumulates_in_order_witness :
    List.Sublist [msgMissing "age", msgAllowed "sex" [0, 1]] errsC5 :=
  (C5_accumulates_in_order recC5 (JsonValue.int 5) errsC5 rfl rfl rfl
    (by rfl)).2

/-- C10: a fractional `oldpeak` is truncated toward zero by the int
coercion; when the truncated value lies in the allowed set {0,...,5} no
oldpeak error is emitted, and the assembled feature vector carries the
truncated value at the oldpeak position (index 9), the fractional part
being discarded. -/
theorem C10_oldpeak_truncation (data : Record) (q : Rat) (errs : List String)
    (values : List Int)
    (hlook : lookupRecord data "oldpeak" = some (JsonValue.float q))
    (hallowed : truncRat q ∈ ([0, 1, 2, 3, 4, 5] : List Int))
    (hval : validate_data data = Except.ok errs)
    (ha : assembleVector data = Except.ok values) :
    int_coerce (JsonValue.float q) = Except.ok (truncRat q) ∧
    msgMissing "oldpeak" ∉ errs ∧ msgType "oldpeak" ∉ errs ∧
    msgAllowed "oldpeak" [0, 1, 2, 3, 4, 5] ∉ errs ∧
    values[9]? = some (truncRat q) := by
  have herrs := errs_eq data errs hval
  subst herrs
  have hmem : ("oldpeak",
      (⟨none, none, some [0, 1, 2, 3, 4, 5], true⟩ : Rule)) ∈ VALIDATION_RULES := by
    decide
  have hfield : fieldMsgsOf data "oldpeak"
      ⟨none, none, some [0, 1, 2, 3, 4, 5], true⟩ = [] := by
    rw [fieldMsgsOf_coerced data "oldpeak" _ (JsonValue.float q) (truncRat q)
      hlook rfl]
    dsimp only
    rw [if_neg (not_not_intro hallowed)]
    rfl
  refine ⟨rfl, ?_, ?_, ?_, ?_⟩
  · exact notMemErrs data _ _ hmem (by simp [possibleMsgs])
      (by rw [hfield]; simp)
  · exact notMemErrs data _ _ hmem (by simp [possibleMsgs])
      (by rw [hfield]; simp)
  · exact notMemErrs data _ _ hmem (by simp [possibleMsgs])
      (by rw [hfield]; simp)
  · unfold assembleVector at ha
    simp only [bind_ok_iff] at ha
    obtain ⟨a0, h0, a1, h1, a2, h2, a3, h3, a4, h4, a5, h5, a6, h6, a7, h7,
      a8, h8, a9, h9, a10, h10, a11, h11, a12, h12, hvals⟩ := ha
    simp only [intOfItem, getItem, hlook, bind_ok_iff] at h9
    obtain ⟨w, hw, hw2⟩ := h9
    injection hw with hw
    subst hw
    have h9' : truncRat q = a9 := by
      have : int_coerce (JsonValue.float q) = Except.ok a9 := hw2
      injection this
    have hvals' : values = [a0, a1, a2, a3, a4, a5, a6, a7, a8, a9, a10, a11, a12] := by
      have hpure : (pure [a0, a1, a2, a3, a4, a5, a6, a7, a8, a9, a10, a11, a12] :
          Except PyExn (List Int)) = Except.ok values := hvals
      injection hpure with hpure
      exact hpure.symm
    rw [hvals', ← h9']
    rfl

/-- Record used by the C10 witness: fully valid except that `oldpeak` is
the float 2.5, which truncates to 2. -/
def recC10 : Record :=
  [("age", JsonValue.int 55), ("sex", JsonValue.int 1), ("cp", JsonValue.int 2),
   ("trestbps", JsonValue.int 130), ("chol", JsonValue.int 250),
   ("fbs", JsonValue.int 0), ("restecg", JsonValue.int 1),
   ("thalach", JsonValue.int 150), ("exang", JsonValue.int 0),
   ("oldpeak", JsonValue.float (mkRat 5 2)), ("slope", JsonValue.int 1),
   ("ca", JsonValue.int 0), ("thal", JsonValue.int 2)]

theorem C10_oldpeak_truncation_witness :
    truncRat (mkRat 5 2) = 2 ∧
    ([55, 1, 2, 130, 250, 0, 1, 150, 0, 2, 1, 0, 2] : List Int)[9]? =
      some (truncRat (mkRat 5 2)) :=
  ⟨by decide,
   (C10_oldpeak_truncation recC10 (mkRat 5 2) []
      [55, 1, 2, 130, 250, 0, 1, 150, 0, 2, 1, 0, 2] rfl (by decide)
      (by rfl) (by rfl)).2.2.2.2⟩

end HeartApp
